import Mathlib

/-!
Verification of the MTP SDK introspection engine (`mtp_sdk/introspect.py`,
`mtp_sdk/types.py`): a shallow embedding of the type inferencer, argument
builder, command-tree walker and canonical serializer, with theorems about
the spec-level properties of each.
-/

namespace MtpSdk

/-- Python runtime values that can appear as a click parameter default.
`sentinel` models click's internal "no value supplied" marker object
(detected in the source by `type(value).__name__ == "Sentinel"`). Floats
are modelled as rationals. -/
inductive PyValue where
  | none
  | bool (b : Bool)
  | int (n : Int)
  | float (q : Rat)
  | str (s : String)
  | tuple (vs : List PyValue)
  | sentinel

/-- JSON-ready values: the output domain of `to_dict`. An object is an
ordered association list, matching Python dict insertion order. -/
inductive JValue where
  | null
  | bool (b : Bool)
  | int (n : Int)
  | float (q : Rat)
  | str (s : String)
  | arr (xs : List JValue)
  | obj (kvs : List (String × JValue))

mutual

/-- Embed a Python value into the JSON domain (tuples become arrays, as
`json.dumps` renders them). -/
def PyValue.toJ : PyValue → JValue
  | .none => .null
  | .bool b => .bool b
  | .int n => .int n
  | .float q => .float q
  | .str s => .str s
  | .tuple vs => .arr (PyValue.toJList vs)
  | .sentinel => .null

/-- Element-wise `PyValue.toJ`. -/
def PyValue.toJList : List PyValue → List JValue
  | [] => []
  | v :: vs => PyValue.toJ v :: PyValue.toJList vs

end

/-- The declared click value type of a parameter (`param.type`).
`intType` covers `IntParamType` and `IntRange`, `floatType` covers
`FloatParamType` and `FloatRange`; `other` is any custom `ParamType`
unknown to the engine. -/
inductive ClickType where
  | choice (choices : List String)
  | intType
  | floatType
  | boolType
  | pathType
  | stringType
  | other (desc : String)
deriving Repr, DecidableEq

/-- A click parameter, as the introspection engine observes it. A click
`Option` has `isOption = true`, an `Argument` has `isOption = false`;
`name` is `param.name or ""` (the engine never distinguishes a `None`
name from an empty one). -/
structure Param where
  name : String
  isOption : Bool
  isFlag : Bool
  multiple : Bool
  count : Bool
  nargs : Int
  hidden : Bool
  required : Bool
  ptype : ClickType
  default : PyValue
  opts : List String
  secondaryOpts : List String
  help : Option String

/-- Association-list lookup with Python `dict` semantics (`d[k]` /
`k in d`). -/
def dictGet (m : List (String × String)) (k : String) : Option String :=
  (m.find? (fun p => p.1 == k)).map (·.2)

/-- `_infer_type`: map one parameter plus an optional override map to an
MTP `(type, values)` pair. The override test models the Python
`type_overrides and name in type_overrides` (an empty dict is falsy). -/
def inferType (param : Param) (typeOverrides : Option (List (String × String)) := Option.none) :
    String × Option (List String) :=
  let name := param.name
  match typeOverrides with
  | some m =>
    match dictGet m name with
    | some t => (t, Option.none)
    | Option.none => inferTypeNoOverride param
  | Option.none => inferTypeNoOverride param
where
  /-- The rule chain after the override check, in source order. -/
  inferTypeNoOverride (param : Param) : String × Option (List String) :=
    if param.isOption && param.isFlag then ("boolean", Option.none)
    else
      match param.ptype with
      | .choice cs => ("enum", some cs)
      | pt =>
        if param.nargs == -1 || (param.isOption && param.multiple) then ("array", Option.none)
        else
          match pt with
          | .intType => ("integer", Option.none)
          | .floatType => ("number", Option.none)
          | .boolType => ("boolean", Option.none)
          | .pathType => ("path", Option.none)
          | _ =>
            if param.isOption && param.count then ("integer", Option.none)
            else ("string", Option.none)

/-- `_FILTERED_NAMES`. -/
def filteredNames : List String := ["help", "version", "mtp_describe"]

/-- `_is_filtered_param`. -/
def isFilteredParam (param : Param) : Bool :=
  if param.hidden then true
  else if filteredNames.contains param.name then true
  else false

/-- Python `max(opts, key=len)`: the first element of maximal length. -/
def maxByLen : List String → String → String
  | [], acc => acc
  | o :: rest, acc => maxByLen rest (if o.length > acc.length then o else acc)

/-- `_option_display_name`: longest of `opts + secondary_opts`, else the
parameter name. -/
def optionDisplayName (param : Param) : String :=
  match param.opts ++ param.secondaryOpts with
  | [] => param.name
  | o :: rest => maxByLen rest o

/-- Python `str.strip()` (whitespace at both ends), on character
lists. -/
def pyStrip (s : String) : String :=
  String.mk (((s.data.dropWhile Char.isWhitespace).reverse.dropWhile Char.isWhitespace).reverse)

/-- Python `str.split(sep)` for a one-character separator. -/
def pySplitChar (s : String) (sep : Char) : List String :=
  (s.data.splitOn sep).map String.mk

/-- Python `str.startswith(c)` for a one-character prefix. -/
def pyStartsWith (s : String) (c : Char) : Bool :=
  match s.data with
  | [] => false
  | c2 :: _ => c2 == c

/-- `default is None`. -/
def PyValue.isNone : PyValue → Bool
  | .none => true
  | _ => false

/-- `default != ()`: the only value comparing equal to the empty tuple is
the empty tuple itself. -/
def PyValue.isEmptyTuple : PyValue → Bool
  | .tuple [] => true
  | _ => false

/-- `_is_sentinel`. -/
def isSentinel : PyValue → Bool
  | .sentinel => true
  | _ => false

/-- `default is False`. -/
def PyValue.isFalse : PyValue → Bool
  | .bool false => true
  | _ => false

/-- A run of decimal digits with Python's underscore rule: nonempty,
starts with a digit, and every underscore sits between two digits. -/
def pyUnderscoreDigits (cs : List Char) : Bool :=
  match cs with
  | [] => false
  | c :: rest => c.isDigit && tailOk rest
where
  tailOk : List Char → Bool
  | [] => true
  | c :: rest =>
    if c == '_' then
      match rest with
      | [] => false
      | c2 :: rest2 => c2.isDigit && tailOk rest2
    else c.isDigit && tailOk rest

/-- Numeric value of a digit run, ignoring underscores. -/
def runVal (cs : List Char) : Nat :=
  (cs.filter (fun c => c != '_')).foldl (fun a c => a * 10 + (c.toNat - 48)) 0

/-- An optionally signed digit run. -/
def pyParseSignedDigits (cs : List Char) : Option Int :=
  match cs with
  | '+' :: rest => if pyUnderscoreDigits rest then some ((runVal rest : Int)) else Option.none
  | '-' :: rest => if pyUnderscoreDigits rest then some (-(runVal rest : Int)) else Option.none
  | rest => if pyUnderscoreDigits rest then some ((runVal rest : Int)) else Option.none

/-- Modelled external builtin: Python `int(s)` on decimal string literals
(whitespace stripped, optional sign, digits with underscores); `none` is
the `ValueError` case. -/
def pyParseInt (s : String) : Option Int :=
  pyParseSignedDigits (pyStrip s).data

/-- Mantissa of a float literal: `digits`, `digits.digits`, `digits.` or
`.digits`. -/
def parseMantissa (cs : List Char) : Option Rat :=
  match cs.splitOn '.' with
  | [a] => if pyUnderscoreDigits a then some ((runVal a : Rat)) else Option.none
  | [a, b] =>
    if (a ≠ [] || b ≠ []) &&
        (a == [] || pyUnderscoreDigits a) && (b == [] || pyUnderscoreDigits b) then
      some ((runVal a : Rat) +
        (runVal b : Rat) / ((10 : Rat) ^ (b.filter (·.isDigit)).length))
    else Option.none
  | _ => Option.none

/-- Split at the first exponent marker. -/
def splitExp : List Char → List Char × Option (List Char)
  | [] => ([], Option.none)
  | c :: rest =>
    if c == 'e' || c == 'E' then ([], some rest)
    else
      let (m, e) := splitExp rest
      (c :: m, e)

/-- Scale a rational by a signed power of ten. -/
def applyExp (q : Rat) (e : Int) : Rat :=
  if 0 ≤ e then q * (10 : Rat) ^ e.toNat else q / (10 : Rat) ^ (-e).toNat

/-- Modelled external builtin: Python `float(s)` on finite decimal
literals (optional sign, decimal point, exponent); `none` is the
`ValueError` case. -/
def pyParseFloat (s : String) : Option Rat :=
  let cs := (pyStrip s).data
  let (sign, body) : Rat × List Char :=
    match cs with
    | '+' :: rest => (1, rest)
    | '-' :: rest => (-1, rest)
    | rest => (1, rest)
  let (m, e) := splitExp body
  match parseMantissa m with
  | Option.none => Option.none
  | some q =>
    match e with
    | Option.none => some (sign * q)
    | some ecs =>
      match pyParseSignedDigits ecs with
      | Option.none => Option.none
      | some exp => some (sign * applyExp q exp)

/-- One argument of the emitted schema (`ArgDescriptor` dataclass).
Optional dataclass fields start out `None`. -/
structure ArgDescriptor where
  name : String
  type : String
  description : Option String := Option.none
  required : Option Bool := Option.none
  default : Option PyValue := Option.none
  values : Option (List String) := Option.none

/-- Python truthiness of an `Optional[str]` (`None` and `""` are falsy). -/
def truthyStr : Option String → Bool
  | Option.none => false
  | some s => s != ""

/-- Python truthiness of an `Optional[List[...]]` value (`None` and the
empty list are falsy). -/
def truthyList {α : Type} : Option (List α) → Bool
  | Option.none => false
  | some l => !l.isEmpty

/-- `_extract_arg`: build one `ArgDescriptor` from a parameter. -/
def extractArg (param : Param)
    (typeOverrides : Option (List (String × String)) := Option.none)
    (argDescriptions : Option (List (String × String)) := Option.none) : ArgDescriptor :=
  let tv := inferType param typeOverrides
  let mtpType := tv.1
  let values := tv.2
  let name := if param.isOption then optionDisplayName param else param.name
  -- `arg_descriptions and param.name and param.name in arg_descriptions`
  let desc : Option String :=
    if param.isOption then param.help
    else
      match argDescriptions with
      | some m => if param.name != "" then dictGet m param.name else Option.none
      | Option.none => Option.none
  let arg : ArgDescriptor := { name := name, type := mtpType }
  let arg := if truthyStr desc then { arg with description := desc } else arg
  let arg := if truthyList values then { arg with values := values } else arg
  -- every parameter is either an Option or an Argument, so `required`
  -- is always copied
  let arg := { arg with required := some param.required }
  let d := param.default
  if !d.isNone && !d.isEmptyTuple && !(isSentinel d) &&
      !(param.isOption && param.isFlag && d.isFalse) then
    let d :=
      if (mtpType == "integer" || mtpType == "number") then
        match d with
        | .str s =>
          if mtpType == "integer" then
            match pyParseInt s with
            | some n => PyValue.int n
            | Option.none => d
          else
            match pyParseFloat s with
            | some q => PyValue.float q
            | Option.none => d
        | _ => d
      else d
    { arg with default := some d }
  else arg

/-- `IODescriptor` dataclass; `schema` is a free-form map passed through
serialization unchanged. -/
structure IODescriptor where
  content_type : Option String := Option.none
  description : Option String := Option.none
  schema : Option (List (String × JValue)) := Option.none

/-- `Example` dataclass. -/
structure Example where
  description : String
  command : String
  output : Option String := Option.none

/-- `CommandDescriptor` dataclass. -/
structure CommandDescriptor where
  name : String
  description : String
  args : Option (List ArgDescriptor) := Option.none
  stdin : Option IODescriptor := Option.none
  stdout : Option IODescriptor := Option.none
  examples : Option (List Example) := Option.none

/-- `AuthConfig` dataclass. -/
structure AuthConfig where
  type : String
  description : Option String := Option.none
  extra : Option (List (String × JValue)) := Option.none

/-- `ToolSchema` dataclass. -/
structure ToolSchema where
  name : String
  version : String
  description : String
  spec_version : String := ""
  commands : List CommandDescriptor := []
  auth : Option AuthConfig := Option.none

/-- `CommandAnnot` dataclass. -/
structure CommandAnnot where
  stdin : Option IODescriptor := Option.none
  stdout : Option IODescriptor := Option.none
  examples : Option (List Example) := Option.none
  arg_types : Option (List (String × String)) := Option.none
  arg_descriptions : Option (List (String × String)) := Option.none

/-- The data a click `Command` node exposes to the engine: its name, its
help text, its parameter list, and its `hidden` flag. -/
structure CmdInfo where
  name : String
  help : Option String := Option.none
  params : List Param := []
  hidden : Bool := false

/-- A click command tree: a leaf `Command`, or a `Group` with an ordered
list of named subcommands (the order `list_commands` yields). -/
inductive CmdTree where
  | leaf (info : CmdInfo)
  | group (info : CmdInfo) (children : List (String × CmdTree))

/-- The node's own `CmdInfo`. -/
def CmdTree.info : CmdTree → CmdInfo
  | .leaf i => i
  | .group i _ => i

/-- `getattr(sub, "hidden", False)`. -/
def CmdTree.hidden (t : CmdTree) : Bool := t.info.hidden

/-- First line of a help text: `help_text.strip().split("\n")[0].strip()`
when the text is truthy (Python `str.strip` modelled by `String.trim`). -/
def firstHelpLine (helpText : String) : String :=
  if helpText != "" then pyStrip ((pySplitChar (pyStrip helpText) '\n').headD "") else helpText

/-- `_build_command`: one `CommandDescriptor` from a command node, a
resolved path name, and an optional annotation. -/
def buildCommand (cmd : CmdTree) (name : String)
    (annot : Option CommandAnnot := Option.none) : CommandDescriptor :=
  let helpText := firstHelpLine (cmd.info.help.getD "")
  let descriptor : CommandDescriptor := { name := name, description := helpText }
  let typeOverrides := annot.bind (·.arg_types)
  let argDescriptions := annot.bind (·.arg_descriptions)
  let args := (cmd.info.params.filter (fun p => !isFilteredParam p)).map
    (fun p => extractArg p typeOverrides argDescriptions)
  -- positional arguments first, then options
  let ordered :=
    args.filter (fun a => !pyStartsWith a.name '-') ++ args.filter (fun a => pyStartsWith a.name '-')
  let descriptor :=
    if !args.isEmpty then { descriptor with args := some ordered } else descriptor
  match annot with
  | some a =>
    let descriptor := if a.stdin.isSome then { descriptor with stdin := a.stdin } else descriptor
    let descriptor := if a.stdout.isSome then { descriptor with stdout := a.stdout } else descriptor
    let descriptor :=
      if truthyList a.examples then { descriptor with examples := a.examples } else descriptor
    descriptor
  | Option.none => descriptor

/-- `parent_path or "_root"` (both `None` and `""` are falsy). -/
def pathOrRoot : Option String → String
  | Option.none => "_root"
  | some p => if p == "" then "_root" else p

/-- `f"{parent_path} {sn}" if parent_path else sn`. -/
def childPath : Option String → String → String
  | Option.none, sn => sn
  | some p, sn => if p == "" then sn else p ++ " " ++ sn

/-- `annotations.get(name) if annotations else None`. -/
def annGet (annotations : Option (List (String × CommandAnnot))) (name : String) :
    Option CommandAnnot :=
  match annotations with
  | some m => (m.find? (fun p => p.1 == name)).map (·.2)
  | Option.none => Option.none

mutual

/-- `_walk_commands`: flatten a command tree into path-named descriptors.
A group with at least one visible child recurses into its visible
children; otherwise the node itself is emitted as a single leaf. -/
def walkCommands (cmd : CmdTree)
    (annotations : Option (List (String × CommandAnnot)) := Option.none)
    (parentPath : Option String := Option.none) : List CommandDescriptor :=
  match cmd with
  | .group _ children =>
    if children.any (fun c => !c.2.hidden) then
      walkVisible children annotations parentPath
    else
      [buildCommand cmd (pathOrRoot parentPath) (annGet annotations (pathOrRoot parentPath))]
  | .leaf _ =>
    [buildCommand cmd (pathOrRoot parentPath) (annGet annotations (pathOrRoot parentPath))]

/-- Recurse into each visible child in declared order, concatenating the
results (hidden children contribute nothing, so this equals walking the
filtered visible list). -/
def walkVisible (children : List (String × CmdTree))
    (annotations : Option (List (String × CommandAnnot)))
    (parentPath : Option String) : List CommandDescriptor :=
  match children with
  | [] => []
  | (sn, sub) :: rest =>
    (if sub.hidden then []
      else walkCommands sub annotations (some (childPath parentPath sn))) ++
    walkVisible rest annotations parentPath

end

/-- Python `str.capitalize()`: first character uppercased, the rest
lowercased. -/
def pyCapitalize (s : String) : String :=
  match s.data with
  | [] => ""
  | c :: rest => String.mk (c.toUpper :: rest.map Char.toLower)

/-- `_snake_to_camel`. -/
def snakeToCamel (name : String) : String :=
  match pySplitChar name '_' with
  | [] => ""
  | p :: parts => p ++ String.join (parts.map pyCapitalize)

/-- `result[k] = v` on a Python dict: update in place when the key
exists, append otherwise. -/
def dictSet (m : List (String × JValue)) (k : String) (v : JValue) : List (String × JValue) :=
  if m.any (fun p => p.1 == k) then m.map (fun p => if p.1 == k then (k, v) else p)
  else m ++ [(k, v)]

/-- `del result[k]`. -/
def dictDel (m : List (String × JValue)) (k : String) : List (String × JValue) :=
  m.filter (fun p => p.1 != k)

/-- An optional dataclass field: emitted when set, omitted when `None`
(the `if val is None: continue` branch of `to_dict`). -/
def optField (key : String) (v : Option JValue) : List (String × JValue) :=
  match v with
  | some j => [(key, j)]
  | Option.none => []

/-- `to_dict` specialized to `Example`. -/
def toDictExample (e : Example) : JValue :=
  .obj ([(snakeToCamel "description", JValue.str e.description),
         (snakeToCamel "command", JValue.str e.command)] ++
    optField (snakeToCamel "output") (e.output.map .str))

/-- `to_dict` specialized to `IODescriptor` (its `schema` map passes
through unchanged). -/
def toDictIODescriptor (d : IODescriptor) : JValue :=
  .obj (optField (snakeToCamel "content_type") (d.content_type.map .str) ++
    optField (snakeToCamel "description") (d.description.map .str) ++
    optField (snakeToCamel "schema") (d.schema.map .obj))

/-- `to_dict` specialized to `ArgDescriptor`. -/
def toDictArg (a : ArgDescriptor) : JValue :=
  .obj ([(snakeToCamel "name", JValue.str a.name),
         (snakeToCamel "type", JValue.str a.type)] ++
    optField (snakeToCamel "description") (a.description.map .str) ++
    optField (snakeToCamel "required") (a.required.map .bool) ++
    optField (snakeToCamel "default") (a.default.map PyValue.toJ) ++
    optField (snakeToCamel "values") (a.values.map (fun vs => .arr (vs.map .str))))

/-- `to_dict` specialized to `CommandDescriptor`. -/
def toDictCommand (c : CommandDescriptor) : JValue :=
  .obj ([(snakeToCamel "name", JValue.str c.name),
         (snakeToCamel "description", JValue.str c.description)] ++
    optField (snakeToCamel "args") (c.args.map (fun l => .arr (l.map toDictArg))) ++
    optField (snakeToCamel "stdin") (c.stdin.map toDictIODescriptor) ++
    optField (snakeToCamel "stdout") (c.stdout.map toDictIODescriptor) ++
    optField (snakeToCamel "examples") (c.examples.map (fun l => .arr (l.map toDictExample))))

/-- `to_dict` specialized to `AuthConfig`, including the final
`extra`-flattening step guarded by `obj.extra`'s truthiness. -/
def toDictAuth (a : AuthConfig) : JValue :=
  let result := [(snakeToCamel "type", JValue.str a.type)] ++
    optField (snakeToCamel "description") (a.description.map .str) ++
    optField (snakeToCamel "extra") (a.extra.map .obj)
  match a.extra with
  | some m =>
    if !m.isEmpty then
      .obj (m.foldl (fun r kv => dictSet r kv.1 kv.2) (dictDel result "extra"))
    else .obj result
  | Option.none => .obj result

/-- `to_dict` specialized to `ToolSchema`. -/
def toDictSchema (s : ToolSchema) : JValue :=
  .obj ([(snakeToCamel "name", JValue.str s.name),
         (snakeToCamel "version", JValue.str s.version),
         (snakeToCamel "description", JValue.str s.description),
         (snakeToCamel "spec_version", JValue.str s.spec_version),
         (snakeToCamel "commands", JValue.arr (s.commands.map toDictCommand))] ++
    optField (snakeToCamel "auth") (s.auth.map toDictAuth))

/-- `MTP_SPEC_VERSION`. -/
def MTP_SPEC_VERSION : String := "2026-02-07"

/-- `DescribeOptions` dataclass. -/
structure DescribeOptions where
  version : Option String := Option.none
  commands : Option (List (String × CommandAnnot)) := Option.none
  auth : Option AuthConfig := Option.none

/-- `generate_schema`. -/
def generateSchema (cli : CmdTree) (options : Option DescribeOptions := Option.none) :
    ToolSchema :=
  let name := cli.info.name
  -- `if options and options.version:` — a falsy version leaves ""
  let version := (options.bind (·.version)).getD ""
  let version := if version != "" then version else ""
  let description := firstHelpLine (cli.info.help.getD "")
  let commands := walkCommands cli (options.bind (·.commands)) Option.none
  let schema : ToolSchema :=
    { name := name, version := version, description := description,
      spec_version := MTP_SPEC_VERSION, commands := commands }
  match options.bind (·.auth) with
  | some a => { schema with auth := some a }
  | Option.none => schema

/-! ## Helper notions used by the theorems -/

/-- Whether the explicit type-override rule fires for this parameter:
the override map is supplied and holds the parameter's name. -/
def overrideApplies (p : Param) (ov : Option (List (String × String))) : Bool :=
  match ov with
  | some m => (dictGet m p.name).isSome
  | Option.none => false

/-- The overriding type string, when the override rule fires. -/
def overrideValue (p : Param) (ov : Option (List (String × String))) : String :=
  match ov with
  | some m => (dictGet m p.name).getD ""
  | Option.none => ""

/-- Keys of a serialized object. -/
def objKeys : JValue → List String
  | .obj kvs => kvs.map (·.1)
  | _ => []

/-- First binding of a key in a serialized object. -/
def objLookup (j : JValue) (k : String) : Option JValue :=
  match j with
  | .obj kvs => (kvs.find? (fun p => p.1 == k)).map (·.2)
  | _ => Option.none

/-- A convenient base parameter for concrete instances. -/
def pArg : Param :=
  { name := "x", isOption := false, isFlag := false, multiple := false,
    count := false, nargs := 1, hidden := false, required := false, ptype := .stringType,
    default := .none, opts := [], secondaryOpts := [], help := Option.none }

/-- Modelled from the spec: the §4.2 ten-rule precedence list
(override, flag, choice set, unlimited occurrences, integer, float,
non-flag boolean, path, counter, fallback string), with rule 4's
"unlimited occurrences" read as the spec words it: a variadic
positional or a multi-valued flag. -/
def specInferType (p : Param) (ov : Option (List (String × String))) :
    String × Option (List String) :=
  if overrideApplies p ov then (overrideValue p ov, Option.none)
  else if p.isOption && p.isFlag then ("boolean", Option.none)
  else
    match p.ptype with
    | .choice cs => ("enum", some cs)
    | pt =>
      if (!p.isOption && p.nargs == -1) || (p.isOption && p.multiple) then ("array", Option.none)
      else
        match pt with
        | .intType => ("integer", Option.none)
        | .floatType => ("number", Option.none)
        | .boolType => ("boolean", Option.none)
        | .pathType => ("path", Option.none)
        | _ =>
          if p.isOption && p.count then ("integer", Option.none)
          else ("string", Option.none)

mutual

/-- Modelled from the spec (§4.1): the number of reachable visible
leaves of a command tree — a group with at least one visible child
contributes the sum over its visible children; any other node is itself
a single leaf. -/
def visibleLeafCount : CmdTree → Nat
  | .leaf _ => 1
  | .group _ children =>
    if children.any (fun c => !c.2.hidden) then countVisibleLeaves children else 1

/-- Sum of leaf counts over the visible children. -/
def countVisibleLeaves : List (String × CmdTree) → Nat
  | [] => 0
  | (_, sub) :: rest =>
    (if sub.hidden then 0 else visibleLeafCount sub) + countVisibleLeaves rest

end

mutual

/-- No object binding anywhere in this JSON value binds a key to an
explicit null (nulls inside arrays are not key bindings). -/
def noNullObjs : JValue → Bool
  | .obj kvs => noNullKVs kvs
  | .arr xs => noNullArr xs
  | _ => true

/-- `noNullObjs` over an object's bindings, also forbidding a binding
whose immediate value is null. -/
def noNullKVs : List (String × JValue) → Bool
  | [] => true
  | (_, v) :: rest =>
    (match v with
      | .null => false
      | _ => true) && noNullObjs v && noNullKVs rest

/-- `noNullObjs` element-wise. -/
def noNullArr : List JValue → Bool
  | [] => true
  | v :: rest => noNullObjs v && noNullArr rest

end

/-- The free-form `schema` map of an optional IO descriptor is free of
null bindings. -/
def ioNullFree : Option IODescriptor → Bool
  | some d =>
    match d.schema with
    | some m => noNullKVs m
    | Option.none => true
  | Option.none => true

/-- A representable argument default: in Python a `None` default is
plain absence (and a sentinel default is never serialized), so a present
default is never the `None`/sentinel value. -/
def argDefaultOk (a : ArgDescriptor) : Bool :=
  match a.default with
  | some PyValue.none => false
  | some PyValue.sentinel => false
  | _ => true

/-- Both free-form maps of a command descriptor are free of null
bindings, and its argument defaults are representable. -/
def cmdMapsNullFree (c : CommandDescriptor) : Bool :=
  ioNullFree c.stdin && ioNullFree c.stdout && (c.args.getD []).all argDefaultOk

/-- Every free-form map reachable from the schema (auth `extra`,
stdin/stdout `schema`) is free of null bindings. -/
def schemaMapsNullFree (s : ToolSchema) : Bool :=
  (match s.auth with
    | some a =>
      match a.extra with
      | some m => noNullKVs m
      | Option.none => true
    | Option.none => true) && s.commands.all cmdMapsNullFree

/-- Duplicate-freedom of a name list, decided structurally. -/
def namesNodup : List String → Bool
  | [] => true
  | x :: xs => !xs.contains x && namesNodup xs

/-- A command name that is non-empty and contains no space. -/
def goodName (s : String) : Bool :=
  !s.data.isEmpty && !s.data.contains ' '

mutual

/-- Every group's children bear pairwise-distinct, non-empty, space-free
names, recursively. -/
def wellNamedB : CmdTree → Bool
  | .leaf _ => true
  | .group _ children => namesNodup (children.map (·.1)) && wellNamedLB children

/-- `wellNamedB` over a child list, including each child's own name. -/
def wellNamedLB : List (String × CmdTree) → Bool
  | [] => true
  | c :: rest => goodName c.1 && wellNamedB c.2 && wellNamedLB rest

end

/-- The character prefix that `childPath` prepends to a child name at a
given parent path. -/
def pathPrefix : Option String → List Char
  | Option.none => []
  | some q => if q == "" then [] else q.data ++ [' ']

/-- `s` extends `base`: it equals `base`, or `base` followed by a space
and more characters. -/
def extOf (base s : List Char) : Prop :=
  s = base ∨ ∃ r, s = base ++ ' ' :: r

/-- A path value as the walker passes it under well-named trees: `none`
at the root, otherwise a non-empty string. -/
def goodPath : Option String → Prop
  | Option.none => True
  | some q => q ≠ ""

/-- A plain positional string parameter named `input`. -/
def pInput : Param := { pArg with name := "input" }

/-- A boolean flag `--pretty`. -/
def pPretty : Param :=
  { pArg with name := "pretty", isOption := true, isFlag := true, opts := ["--pretty"] }

/-- A leaf command declaring the flag before the positional. -/
def cmdConvert : CmdTree := CmdTree.leaf { name := "convert", params := [pPretty, pInput] }

/-! ## Theorems -/

/-- The rule chain after the override check only yields values through
the choice rule, and only when the parameter is not a flag. -/
theorem inferTypeNoOverride_snd (p : Param) :
    (inferType.inferTypeNoOverride p).2 =
      match p.ptype with
      | .choice cs => if !(p.isOption && p.isFlag) then some cs else Option.none
      | _ => Option.none := by
  unfold inferType.inferTypeNoOverride
  by_cases hf : (p.isOption && p.isFlag) = true
  · simp only [if_pos hf, hf, Bool.not_true]
    cases p.ptype <;> simp
  · simp only [if_neg hf, Bool.not_eq_true] at *
    simp only [hf, Bool.not_false]
    cases p.ptype <;> simp only [if_pos, if_neg] <;>
      (repeat' split) <;> rfl

/-- The second component of `inferType` is populated exactly by the
choice-set rule: no override, not a flag, declared `Choice` type. -/
theorem inferType_snd (p : Param) (ov : Option (List (String × String))) :
    (inferType p ov).2 =
      match p.ptype with
      | .choice cs =>
        if !(overrideApplies p ov) && !(p.isOption && p.isFlag) then some cs else Option.none
      | _ => Option.none := by
  unfold inferType overrideApplies
  cases ov with
  | none =>
    simpa using inferTypeNoOverride_snd p
  | some m =>
    cases hg : dictGet m p.name with
    | none =>
      simpa [hg] using inferTypeNoOverride_snd p
    | some t =>
      simp only [hg, Option.isSome_some, Bool.not_true, Bool.false_and]
      cases p.ptype <;> simp

/-- When no override fires, `inferType` is the plain rule chain. -/
theorem inferType_noOverride (p : Param) (ov : Option (List (String × String)))
    (h : overrideApplies p ov = false) :
    inferType p ov = inferType.inferTypeNoOverride p := by
  unfold overrideApplies at h
  unfold inferType
  cases ov with
  | none => rfl
  | some m =>
    cases hg : dictGet m p.name with
    | none => simp [hg]
    | some t => simp [hg] at h

/-- The choice rule yields `enum` together with the declared choices. -/
theorem inferTypeNoOverride_enum (p : Param) (cs : List String)
    (hpt : p.ptype = .choice cs) (hf : (p.isOption && p.isFlag) = false) :
    inferType.inferTypeNoOverride p = ("enum", some cs) := by
  unfold inferType.inferTypeNoOverride
  rw [if_neg (by simp [hf]), hpt]

/-- Whenever `inferType` reports values, the reported type is `enum`. -/
theorem inferType_enum_of_values (p : Param) (ov : Option (List (String × String)))
    (cs : List String) (h : (inferType p ov).2 = some cs) :
    (inferType p ov).1 = "enum" := by
  have hs := inferType_snd p ov
  rw [h] at hs
  cases hpt : p.ptype <;> rw [hpt] at hs <;> simp at hs
  case choice cs2 =>
    obtain ⟨⟨h1, h2⟩, _⟩ := hs
    have hf : (p.isOption && p.isFlag) = false := by
      rcases h2 with h2 | h2 <;> simp [h2]
    rw [inferType_noOverride p ov h1, inferTypeNoOverride_enum p cs2 hpt hf]

/-- The `values` field of an extracted argument is the inferred values
when that list is truthy, and absent otherwise. -/
theorem extractArg_values (p : Param) (ov ds : Option (List (String × String))) :
    (extractArg p ov ds).values =
      if truthyList (inferType p ov).2 then (inferType p ov).2 else Option.none := by
  unfold extractArg
  by_cases h : truthyList (inferType p ov).2 = true <;> simp [h] <;>
    (repeat' split) <;> simp

/-- An extracted argument's `type` field is the inferred type. -/
theorem extractArg_type (p : Param) (ov ds : Option (List (String × String))) :
    (extractArg p ov ds).type = (inferType p ov).1 := by
  simp only [extractArg]
  (repeat' split) <;> rfl

/-- C1 (amended): the `values` field is present exactly when the type
was inferred by the choice-set rule (no override, not a flag) and the
declared choice set is non-empty, and it then equals the declared
choices in order; whenever `values` is present the type is `enum`, but
an enum type obtained from an override or from an empty choice set
carries no `values`. -/
theorem values_present_iff_nonempty_choice (p : Param)
    (ov ds : Option (List (String × String))) :
    ((extractArg p ov ds).values =
      match p.ptype with
      | .choice cs =>
        if (!(overrideApplies p ov) && !(p.isOption && p.isFlag)) && !cs.isEmpty then some cs
        else Option.none
      | _ => Option.none)
    ∧ ((extractArg p ov ds).type = "enum" ∨ (extractArg p ov ds).values = Option.none) := by
  constructor
  · rw [extractArg_values, inferType_snd]
    cases p.ptype with
    | choice cs =>
      by_cases hc : (!(overrideApplies p ov) && !(p.isOption && p.isFlag)) = true
      · simp only [hc, if_true, Bool.true_and]
        cases cs <;> simp [truthyList]
      · have hp : ¬(overrideApplies p ov = false ∧ (p.isOption = false ∨ p.isFlag = false)) := by
          simpa [Bool.and_eq_true, Bool.not_eq_true'] using hc
        simp [hp, truthyList]
    | intType => simp [truthyList]
    | floatType => simp [truthyList]
    | boolType => simp [truthyList]
    | pathType => simp [truthyList]
    | stringType => simp [truthyList]
    | other d => simp [truthyList]
  · rcases hv : (extractArg p ov ds).values with _ | cs
    · right; rfl
    · left
      rw [extractArg_values] at hv
      split at hv
      · rw [extractArg_type]
        exact inferType_enum_of_values p ov cs hv
      · simp at hv

/-- C1 counterexample: an option with an empty declared choice set gets
type `enum` but no `values` field, so `values` is not present for every
enum-typed argument. -/
theorem values_enum_counterexample :
    (extractArg { pArg with isOption := true, ptype := ClickType.choice [], opts := ["--c"] }).type = "enum" ∧
    (extractArg { pArg with isOption := true, ptype := ClickType.choice [], opts := ["--c"] }).values = Option.none := by
  exact ⟨rfl, rfl⟩

/-- C4: with click's invariant that options are never variadic
(`nargs = -1` occurs only on positional arguments), the type inferencer
agrees everywhere with the spec's ten-rule first-match-wins precedence
list, and in particular is total: unrecognized declared types fall
through to `string`. -/
theorem inferType_follows_spec_precedence (p : Param)
    (ov : Option (List (String × String))) (h : p.isOption = true → p.nargs ≠ -1) :
    inferType p ov = specInferType p ov := by
  have hr4 : (p.nargs == -1 || (p.isOption && p.multiple)) =
      ((!p.isOption && p.nargs == -1) || (p.isOption && p.multiple)) := by
    cases ho : p.isOption with
    | false => simp
    | true =>
      have h2 : (p.nargs == -1) = false := beq_eq_false_iff_ne.mpr (h ho)
      simp [h2, ho]
  unfold specInferType
  by_cases hov : overrideApplies p ov = true
  · rw [if_pos hov]
    unfold inferType overrideApplies at *
    cases ov with
    | none => simp at hov
    | some m =>
      cases hg : dictGet m p.name with
      | none => simp [hg] at hov
      | some t => simp [hg, overrideValue]
  · have hov' : overrideApplies p ov = false := by simpa using hov
    rw [if_neg hov, inferType_noOverride p ov hov']
    unfold inferType.inferTypeNoOverride
    by_cases hf : (p.isOption && p.isFlag) = true
    · simp [hf]
    · rw [if_neg hf, if_neg hf]
      cases p.ptype <;> first | rfl | rw [hr4]

/-- `buildCommand` emits the descriptor under the name it was given. -/
theorem buildCommand_name (cmd : CmdTree) (name : String) (ann : Option CommandAnnot) :
    (buildCommand cmd name ann).name = name := by
  simp only [buildCommand]
  (repeat' split) <;> rfl

/-- The `args` field of a built command: absent when no parameter
survives filtering, otherwise the stable partition (positionals before
flags) of the extracted arguments in declaration order. -/
theorem buildCommand_args (cmd : CmdTree) (name : String) (ann : Option CommandAnnot) :
    (buildCommand cmd name ann).args =
      (if ((cmd.info.params.filter (fun p => !isFilteredParam p)).map
            (fun p => extractArg p (ann.bind (·.arg_types)) (ann.bind (·.arg_descriptions)))).isEmpty
        then Option.none
        else some
          (((cmd.info.params.filter (fun p => !isFilteredParam p)).map
              (fun p => extractArg p (ann.bind (·.arg_types)) (ann.bind (·.arg_descriptions)))).filter
              (fun a => !pyStartsWith a.name '-') ++
            ((cmd.info.params.filter (fun p => !isFilteredParam p)).map
              (fun p => extractArg p (ann.bind (·.arg_types)) (ann.bind (·.arg_descriptions)))).filter
              (fun a => pyStartsWith a.name '-'))) := by
  simp only [buildCommand]
  by_cases he : ((cmd.info.params.filter (fun p => !isFilteredParam p)).map
      (fun p => extractArg p (ann.bind (·.arg_types)) (ann.bind (·.arg_descriptions)))).isEmpty = true
  · simp only [he, Bool.not_true, Bool.false_eq_true, if_false, if_true]
    (repeat' split) <;> rfl
  · have he' : ((cmd.info.params.filter (fun p => !isFilteredParam p)).map
        (fun p => extractArg p (ann.bind (·.arg_types)) (ann.bind (·.arg_descriptions)))).isEmpty = false := by
      simpa using he
    simp only [he', Bool.not_false, Bool.false_eq_true, if_true, if_false]
    (repeat' split) <;> rfl

/-- The filtering predicate spelled out: hidden, or one of the three
reserved control names. -/
theorem isFilteredParam_iff (p : Param) :
    isFilteredParam p = true ↔
      (p.hidden = true ∨ p.name = "help" ∨ p.name = "version" ∨ p.name = "mtp_describe") := by
  unfold isFilteredParam filteredNames
  cases hh : p.hidden <;> simp [hh]

/-- Bool form of the filtering predicate. -/
theorem isFilteredParam_eq (p : Param) :
    isFilteredParam p =
      (p.hidden || p.name == "help" || p.name == "version" || p.name == "mtp_describe") := by
  rw [Bool.eq_iff_iff]
  simp only [isFilteredParam_iff, Bool.or_eq_true, beq_iff_eq]
  tauto

/-- C8: a parameter is excluded from the emitted `args` exactly when it
is hidden or bears one of the three reserved control names; up to the
stable positional/flag reordering, the emitted arguments are precisely
the extractions of the surviving parameters. -/
theorem args_exclude_exactly_reserved_or_hidden (cmd : CmdTree) (name : String)
    (ann : Option CommandAnnot) :
    ((buildCommand cmd name ann).args.getD []).Perm
      ((cmd.info.params.filter (fun p =>
          !(p.hidden || p.name == "help" || p.name == "version" || p.name == "mtp_describe"))).map
        (fun p => extractArg p (ann.bind (·.arg_types)) (ann.bind (·.arg_descriptions)))) := by
  have hfil : (cmd.info.params.filter (fun p => !isFilteredParam p)) =
      (cmd.info.params.filter (fun p =>
        !(p.hidden || p.name == "help" || p.name == "version" || p.name == "mtp_describe"))) := by
    apply List.filter_congr
    intro a _
    rw [isFilteredParam_eq]
  rw [buildCommand_args, ← hfil]
  by_cases he : ((cmd.info.params.filter (fun p => !isFilteredParam p)).map
      (fun p => extractArg p (ann.bind (·.arg_types)) (ann.bind (·.arg_descriptions)))).isEmpty = true
  · rw [if_pos he]
    rw [List.isEmpty_iff] at he
    simp [he]
  · rw [if_neg he]
    simpa using List.filter_append_perm (fun a : ArgDescriptor => !pyStartsWith a.name '-') _

/-- In a concatenation whose first half falsifies `P` and whose second
half satisfies it, anything after a `P`-element also satisfies `P`. -/
theorem append_pred_order {α : Type} (P : α → Bool) (A B : List α)
    (hA : ∀ a ∈ A, P a = false) (hB : ∀ b ∈ B, P b = true) :
    ∀ (i j : Fin (A ++ B).length), (i : ℕ) < (j : ℕ) →
      P ((A ++ B).get i) = true → P ((A ++ B).get j) = true := by
  intro i j hij hPi
  have hi : A.length ≤ (i : ℕ) := by
    by_contra hlt
    push_neg at hlt
    have hmem : (A ++ B).get i ∈ A := by
      rw [List.get_eq_getElem, List.getElem_append_left hlt]
      exact List.getElem_mem _
    rw [hA _ hmem] at hPi
    exact Bool.false_ne_true hPi
  have hj : A.length ≤ (j : ℕ) := le_trans hi (le_of_lt hij)
  have hmem : (A ++ B).get j ∈ B := by
    rw [List.get_eq_getElem, List.getElem_append_right hj]
    exact List.getElem_mem _
  exact hB _ hmem

/-- C5: whenever a built command carries arguments, the sequence is the
two filtered runs of the declaration-order extraction — all positionals
(names without a leading dash) first, then all flags, each run keeping
declaration order — and consequently no flag ever precedes a
positional. -/
theorem positionals_precede_flags (cmd : CmdTree) (name : String)
    (ann : Option CommandAnnot) (l : List ArgDescriptor)
    (h : (buildCommand cmd name ann).args = some l) :
    (l = ((cmd.info.params.filter (fun p => !isFilteredParam p)).map
        (fun p => extractArg p (ann.bind (·.arg_types)) (ann.bind (·.arg_descriptions)))).filter
        (fun a => !pyStartsWith a.name '-') ++
      ((cmd.info.params.filter (fun p => !isFilteredParam p)).map
        (fun p => extractArg p (ann.bind (·.arg_types)) (ann.bind (·.arg_descriptions)))).filter
        (fun a => pyStartsWith a.name '-'))
    ∧ ∀ (i j : Fin l.length), (i : ℕ) < (j : ℕ) →
        pyStartsWith (l.get i).name '-' = true → pyStartsWith (l.get j).name '-' = true := by
  rw [buildCommand_args] at h
  split at h
  · exact absurd h (by simp)
  · have hl := (Option.some_injective _ h.symm)
    refine ⟨hl, ?_⟩
    subst hl
    intro i j hij hPi
    refine append_pred_order (fun a => pyStartsWith a.name '-') _ _ ?_ ?_ i j hij hPi
    · intro a ha
      have h2 := (List.mem_filter.mp ha).2
      simpa using h2
    · intro b hb
      exact (List.mem_filter.mp hb).2

/-- Witness for C5 at a command declaring a flag before a positional:
the emitted order puts the positional first. -/
theorem positionals_precede_flags_witness :
    (buildCommand cmdConvert "convert" Option.none).args =
      some [extractArg pInput Option.none Option.none, extractArg pPretty Option.none Option.none] ∧
    [extractArg pInput Option.none Option.none, extractArg pPretty Option.none Option.none] =
      ((cmdConvert.info.params.filter (fun p => !isFilteredParam p)).map
        (fun p => extractArg p ((Option.none : Option CommandAnnot).bind (·.arg_types))
          ((Option.none : Option CommandAnnot).bind (·.arg_descriptions)))).filter
        (fun a => !pyStartsWith a.name '-') ++
      ((cmdConvert.info.params.filter (fun p => !isFilteredParam p)).map
        (fun p => extractArg p ((Option.none : Option CommandAnnot).bind (·.arg_types))
          ((Option.none : Option CommandAnnot).bind (·.arg_descriptions)))).filter
        (fun a => pyStartsWith a.name '-') :=
  ⟨by rfl, (positionals_precede_flags cmdConvert "convert" Option.none _ (by rfl)).1⟩

/-- A command descriptor with no `args` serializes without an `args`
key. -/
theorem toDictCommand_no_args_key (c : CommandDescriptor) (h : c.args = Option.none) :
    ¬("args" ∈ objKeys (toDictCommand c)) := by
  unfold toDictCommand objKeys optField
  cases c.stdin <;> cases c.stdout <;> cases c.examples <;> simp [h, snakeToCamel] <;> decide

/-- C10: when every parameter of a command is filtered away (or there
were none), the built descriptor has no `args` at all — the serialized
command object carries no `args` key — and an emitted `args` sequence is
never empty. -/
theorem no_empty_args_emitted (cmd : CmdTree) (name : String)
    (ann : Option CommandAnnot) :
    ((cmd.info.params.filter (fun p => !isFilteredParam p)) = [] →
      (buildCommand cmd name ann).args = Option.none ∧
      ¬("args" ∈ objKeys (toDictCommand (buildCommand cmd name ann))))
    ∧ (∀ l, (buildCommand cmd name ann).args = some l → l ≠ []) := by
  constructor
  · intro h
    have hargs : (buildCommand cmd name ann).args = Option.none := by
      rw [buildCommand_args, h]
      simp
    exact ⟨hargs, toDictCommand_no_args_key _ hargs⟩
  · intro l hl
    rw [buildCommand_args] at hl
    split at hl
    · exact absurd hl (by simp)
    · rename_i hne
      have hl' := Option.some_injective _ hl.symm
      intro hnil
      rw [hnil] at hl'
      have hperm := List.filter_append_perm
        (fun a : ArgDescriptor => !pyStartsWith a.name '-')
        ((cmd.info.params.filter (fun p => !isFilteredParam p)).map
          (fun p => extractArg p (ann.bind (·.arg_types)) (ann.bind (·.arg_descriptions))))
      simp only [Bool.not_not] at hperm
      rw [← hl'] at hperm
      have hlen := hperm.length_eq
      simp only [List.length_nil] at hlen
      rw [List.isEmpty_iff] at hne
      exact hne (List.length_eq_zero.mp hlen.symm)

/-- Witness for C10 at a parameterless leaf command. -/
theorem no_empty_args_emitted_witness :
    (buildCommand (CmdTree.leaf { name := "solo" }) "n" Option.none).args = Option.none ∧
    ¬("args" ∈ objKeys (toDictCommand (buildCommand (CmdTree.leaf { name := "solo" }) "n" Option.none))) :=
  (no_empty_args_emitted (CmdTree.leaf { name := "solo" }) "n" Option.none).1 rfl

/-- Witness for C4 at a concrete multi-valued flag. -/
theorem inferType_follows_spec_precedence_witness :
    (({ pArg with isOption := true, multiple := true } : Param).isOption = true →
      ({ pArg with isOption := true, multiple := true } : Param).nargs ≠ -1) ∧
    inferType { pArg with isOption := true, multiple := true } Option.none =
      specInferType { pArg with isOption := true, multiple := true } Option.none :=
  ⟨by decide, inferType_follows_spec_precedence _ Option.none (by decide)⟩

/-- C7: the `default` field is present exactly when the underlying
default is not `None`, not the empty tuple, not the internal sentinel,
and not `False` on a boolean flag; a textual default is numerically
coerced exactly when the inferred type is `integer` or `number`, keeping
the original string when parsing fails; non-string defaults are never
altered. -/
theorem default_field_rules (p : Param) (ov ds : Option (List (String × String))) :
    ((extractArg p ov ds).default.isSome ↔
      (p.default.isNone = false ∧ p.default.isEmptyTuple = false ∧
        isSentinel p.default = false ∧
        ¬(p.isOption = true ∧ p.isFlag = true ∧ p.default.isFalse = true)))
    ∧ (∀ s, p.default = PyValue.str s →
        (extractArg p ov ds).default = some (
          if (inferType p ov).1 = "integer" then
            match pyParseInt s with
            | some n => PyValue.int n
            | Option.none => PyValue.str s
          else if (inferType p ov).1 = "number" then
            match pyParseFloat s with
            | some q => PyValue.float q
            | Option.none => PyValue.str s
          else PyValue.str s))
    ∧ ((∀ s, p.default ≠ PyValue.str s) →
        (extractArg p ov ds).default = Option.none ∨
        (extractArg p ov ds).default = some p.default) := by
  have hdef : (extractArg p ov ds).default =
      (if (!p.default.isNone && !p.default.isEmptyTuple && !(isSentinel p.default) &&
          !(p.isOption && p.isFlag && p.default.isFalse)) = true then
        some (if ((inferType p ov).1 == "integer" || (inferType p ov).1 == "number") = true then
            match p.default with
            | PyValue.str s =>
              if ((inferType p ov).1 == "integer") = true then
                match pyParseInt s with
                | some n => PyValue.int n
                | Option.none => p.default
              else
                match pyParseFloat s with
                | some q => PyValue.float q
                | Option.none => p.default
            | _ => p.default
          else p.default)
      else Option.none) := by
    simp only [extractArg]
    (repeat' split) <;> simp_all
  refine ⟨?_, ?_, ?_⟩
  · rw [hdef]
    split
    case isTrue hg =>
      simp only [Option.isSome_some, true_iff]
      simp only [Bool.and_eq_true, Bool.not_eq_true', Bool.not_eq_true] at hg
      obtain ⟨⟨⟨h1, h2⟩, h3⟩, h4⟩ := hg
      refine ⟨h1, h2, h3, ?_⟩
      intro ⟨ha, hb, hc⟩
      simp [ha, hb, hc] at h4
    case isFalse hg =>
      simp only [Option.isSome_none, Bool.false_eq_true, false_iff]
      intro ⟨h1, h2, h3, h4⟩
      apply hg
      simp only [Bool.and_eq_true, Bool.not_eq_true', Bool.not_eq_true]
      refine ⟨⟨⟨h1, h2⟩, h3⟩, ?_⟩
      cases hov : p.isOption <;> cases hfl : p.isFlag <;> cases hdf : p.default.isFalse <;>
        simp_all
  · intro s hs
    rw [hdef, hs]
    rw [if_pos (by simp [PyValue.isNone, PyValue.isEmptyTuple, isSentinel, PyValue.isFalse])]
    by_cases hi : (inferType p ov).1 = "integer"
    · simp [hi]
    · by_cases hn : (inferType p ov).1 = "number"
      · simp [hi, hn]
      · simp [hi, hn]
  · intro hns
    rw [hdef]
    split
    case isFalse => exact Or.inl rfl
    case isTrue hg =>
      right
      congr 1
      split
      case isFalse => rfl
      case isTrue =>
        cases hd : p.default <;> try rfl
        case str s => exact absurd hd (hns s)

/-- Witness for C7: a string default `"3"` on an integer-typed
parameter is coerced to the integer 3. -/
theorem default_field_rules_witness :
    (extractArg { pArg with ptype := ClickType.intType, default := PyValue.str "3" } Option.none Option.none).default = some (PyValue.int 3) := by
  have h := (default_field_rules { pArg with ptype := ClickType.intType, default := PyValue.str "3" } Option.none Option.none).2.1 "3" rfl
  exact h.trans (by rfl)

/-- Keys after a Python-style dict update: unchanged when the key was
present, appended otherwise. -/
theorem keys_dictSet (r : List (String × JValue)) (k : String) (v : JValue) :
    (dictSet r k v).map (·.1) =
      if r.any (fun p => p.1 == k) then r.map (·.1) else r.map (·.1) ++ [k] := by
  unfold dictSet
  split
  case isTrue h =>
    rw [List.map_map]
    apply List.map_congr_left
    intro p _
    by_cases hpk : (p.1 == k) = true
    · have := eq_of_beq hpk
      simp [hpk, this]
    · simp only [Function.comp]
      rw [if_neg hpk]
  case isFalse h => simp

/-- After replacing every `k`-keyed entry, the first `k`-keyed entry is
the replacement. -/
theorem find_replace_self (r : List (String × JValue)) (k : String) (v : JValue)
    (h : r.any (fun p => p.1 == k) = true) :
    ((r.map (fun p => if p.1 == k then (k, v) else p)).find? (fun p => p.1 == k)) =
      some (k, v) := by
  induction r with
  | nil => simp at h
  | cons p rest ih =>
    simp only [List.map_cons]
    by_cases hpk : (p.1 == k) = true
    · rw [if_pos hpk]
      exact List.find?_cons_of_pos _ (by simp)
    · have hpk' : (p.1 == k) = false := by simpa using hpk
      simp only [List.any_cons, hpk', Bool.false_or] at h
      rw [if_neg hpk, @List.find?_cons_of_neg _ (fun q => q.1 == k) p _ hpk]
      exact ih h

/-- Replacing `k`-keyed entries does not affect lookups of other keys. -/
theorem find_replace_other (r : List (String × JValue)) (k : String) (v : JValue)
    (k2 : String) (hk : k2 ≠ k) :
    ((r.map (fun p => if p.1 == k then (k, v) else p)).find? (fun p => p.1 == k2)) =
      r.find? (fun p => p.1 == k2) := by
  induction r with
  | nil => rfl
  | cons p rest ih =>
    simp only [List.map_cons]
    by_cases hpk : (p.1 == k) = true
    · have hpe : p.1 = k := eq_of_beq hpk
      have h1 : (k == k2) = false := beq_eq_false_iff_ne.mpr (fun he => hk he.symm)
      rw [if_pos hpk,
        @List.find?_cons_of_neg _ (fun q => q.1 == k2) (k, v) _ (by simp [h1]),
        @List.find?_cons_of_neg _ (fun q => q.1 == k2) p _ (by simp [hpe, h1])]
      exact ih
    · rw [if_neg hpk]
      by_cases hq : (p.1 == k2) = true
      · rw [@List.find?_cons_of_pos _ (fun q => q.1 == k2) p _ hq,
          @List.find?_cons_of_pos _ (fun q => q.1 == k2) p _ hq]
      · rw [@List.find?_cons_of_neg _ (fun q => q.1 == k2) p _ hq,
          @List.find?_cons_of_neg _ (fun q => q.1 == k2) p _ hq]
        exact ih

/-- `dictSet` rewrites exactly the targeted key's binding. -/
theorem lookup_dictSet (r : List (String × JValue)) (k : String) (v : JValue) (k2 : String) :
    objLookup (JValue.obj (dictSet r k v)) k2 =
      if k2 = k then some v else objLookup (JValue.obj r) k2 := by
  unfold dictSet
  by_cases h : r.any (fun p => p.1 == k) = true
  · rw [if_pos h]
    by_cases he : k2 = k
    · subst he
      simp only [objLookup]
      rw [find_replace_self r k2 v h]
      simp
    · simp only [objLookup]
      rw [find_replace_other r k v k2 he]
      simp [he]
  · rw [if_neg h]
    by_cases he : k2 = k
    · subst he
      have hnone : r.find? (fun p => p.1 == k2) = none := by
        rw [List.find?_eq_none]
        intro x hx hb
        apply h
        rw [List.any_eq_true]
        exact ⟨x, hx, hb⟩
      simp [objLookup, hnone]
    · have h1 : ((k, v).1 == k2) = false := beq_eq_false_iff_ne.mpr (fun h2 => he h2.symm)
      simp [objLookup, he, h1]

/-- Deleting a key removes it from the key set. -/
theorem not_mem_keys_dictDel (r : List (String × JValue)) (k : String) :
    ¬(k ∈ (dictDel r k).map (·.1)) := by
  unfold dictDel
  intro hmem
  simp only [List.mem_map] at hmem
  obtain ⟨p, hp, hpk⟩ := hmem
  have h2 := (List.mem_filter.mp hp).2
  rw [hpk] at h2
  simp at h2

/-- Folding updates for keys outside `m` leaves a lookup unchanged. -/
theorem foldl_dictSet_lookup_stable (m : List (String × JValue)) :
    ∀ (r : List (String × JValue)) (k : String), ¬(k ∈ m.map (·.1)) →
      objLookup (JValue.obj (m.foldl (fun r kv => dictSet r kv.1 kv.2) r)) k =
        objLookup (JValue.obj r) k := by
  induction m with
  | nil => intro r k _; rfl
  | cons kv rest ih =>
    intro r k h
    simp only [List.map_cons, List.mem_cons] at h
    push_neg at h
    rw [List.foldl_cons, ih _ _ h.2, lookup_dictSet, if_neg h.1]

/-- With duplicate-free keys, every pair of `m` is looked up after the
fold at exactly its own value. -/
theorem foldl_dictSet_lookup_mem (m : List (String × JValue)) :
    ∀ (r : List (String × JValue)), (m.map (·.1)).Nodup →
      ∀ kv ∈ m, objLookup (JValue.obj (m.foldl (fun r kv => dictSet r kv.1 kv.2) r)) kv.1 =
        some kv.2 := by
  induction m with
  | nil => intro r _ kv h; simp at h
  | cons kv0 rest ih =>
    intro r hnd kv hmem
    simp only [List.map_cons, List.nodup_cons] at hnd
    rcases List.mem_cons.mp hmem with he | hm
    · subst he
      rw [List.foldl_cons, foldl_dictSet_lookup_stable rest _ kv.1 hnd.1,
        lookup_dictSet, if_pos rfl]
    · exact ih _ hnd.2 kv hm

/-- A key absent from both the start dict and the update list stays
absent through the fold. -/
theorem foldl_dictSet_keys_not_mem (m : List (String × JValue)) :
    ∀ (r : List (String × JValue)) (k : String), ¬(k ∈ m.map (·.1)) → ¬(k ∈ r.map (·.1)) →
      ¬(k ∈ (m.foldl (fun r kv => dictSet r kv.1 kv.2) r).map (·.1)) := by
  induction m with
  | nil => intro r k _ hr; simpa using hr
  | cons kv0 rest ih =>
    intro r k hm hr
    simp only [List.map_cons, List.mem_cons] at hm
    push_neg at hm
    rw [List.foldl_cons]
    apply ih _ _ hm.2
    rw [keys_dictSet]
    split
    · exact hr
    · simp only [List.mem_append, List.mem_singleton]
      rintro (h | h)
      · exact hr h
      · exact hm.1 h

/-- C2 (amended): a non-empty `extra` map whose keys avoid the literal
name `extra` is merged pairwise into the auth object at the same level
as `type`/`description`, with no `extra` key in the output; an empty
`extra` map, however, leaves a literal `extra` key bound to an empty
object. -/
theorem extra_flattening (a : AuthConfig) (m : List (String × JValue)) (h : a.extra = some m) :
    (m = [] → "extra" ∈ objKeys (toDictAuth a))
    ∧ (m ≠ [] → ¬("extra" ∈ m.map (·.1)) → ¬("extra" ∈ objKeys (toDictAuth a)))
    ∧ (m ≠ [] → (m.map (·.1)).Nodup →
        ∀ kv ∈ m, objLookup (toDictAuth a) kv.1 = some kv.2) := by
  obtain ⟨t, d, e⟩ := a
  simp only at h
  subst h
  have hsc : snakeToCamel "extra" = "extra" := rfl
  refine ⟨?_, ?_, ?_⟩
  · intro hm
    subst hm
    cases d <;> simp [toDictAuth, objKeys, optField, hsc]
  · intro hm hne
    have hm' : m.isEmpty = false := by
      cases m
      · exact absurd rfl hm
      · rfl
    simp only [toDictAuth, hm', Bool.not_false, if_true, objKeys]
    exact foldl_dictSet_keys_not_mem m _ "extra" hne (not_mem_keys_dictDel _ "extra")
  · intro hm hnd kv hmem
    have hm' : m.isEmpty = false := by
      cases m
      · exact absurd rfl hm
      · rfl
    simp only [toDictAuth, hm', Bool.not_false, if_true]
    exact foldl_dictSet_lookup_mem m _ hnd kv hmem

/-- C2 counterexample: serializing an auth config whose `extra` map is
empty leaves a literal `extra` key in the output. -/
theorem extra_flattening_counterexample :
    "extra" ∈ objKeys (toDictAuth { type := "oauth2", extra := some [] }) := by
  decide

/-- Witness for C2 at the spec's Scenario D auth config. -/
theorem extra_flattening_witness :
    ¬("extra" ∈ objKeys (toDictAuth { type := "oauth2", extra := some [("authorizationUrl", JValue.str "https://x")] })) ∧
    objLookup (toDictAuth { type := "oauth2", extra := some [("authorizationUrl", JValue.str "https://x")] }) "authorizationUrl" = some (JValue.str "https://x") :=
  ⟨(extra_flattening { type := "oauth2", extra := some [("authorizationUrl", JValue.str "https://x")] } [("authorizationUrl", JValue.str "https://x")] rfl).2.1 (by simp) (by decide),
    (extra_flattening { type := "oauth2", extra := some [("authorizationUrl", JValue.str "https://x")] } [("authorizationUrl", JValue.str "https://x")] rfl).2.2 (by simp) (by decide) ("authorizationUrl", JValue.str "https://x") (by simp)⟩

/-- Walking the children while skipping hidden ones equals walking the
filtered visible list in declared order, depth-first concatenated. -/
theorem walkVisible_flatten (children : List (String × CmdTree))
    (ann : Option (List (String × CommandAnnot))) (path : Option String) :
    walkVisible children ann path =
      ((children.filter (fun c => !c.2.hidden)).map
        (fun c => walkCommands c.2 ann (some (childPath path c.1)))).flatten := by
  induction children with
  | nil => rfl
  | cons c rest ih =>
    obtain ⟨sn, sub⟩ := c
    cases hh : sub.hidden with
    | true => simp [walkVisible, hh, ih]
    | false => simp [walkVisible, hh, ih]

mutual

/-- The walker emits exactly one descriptor per reachable visible
leaf. -/
theorem walk_length (t : CmdTree) (ann : Option (List (String × CommandAnnot)))
    (path : Option String) : (walkCommands t ann path).length = visibleLeafCount t :=
  match t with
  | .leaf _ => by simp [walkCommands, visibleLeafCount]
  | .group info children => by
    cases h : children.any (fun c => !c.2.hidden) with
    | true =>
      rw [show walkCommands (.group info children) ann path =
        walkVisible children ann path by simp [walkCommands, h]]
      rw [show visibleLeafCount (.group info children) =
        countVisibleLeaves children by simp [visibleLeafCount, h]]
      exact walkVisible_length children ann path
    | false => simp [walkCommands, visibleLeafCount, h]

/-- Length of the children walk. -/
theorem walkVisible_length (children : List (String × CmdTree))
    (ann : Option (List (String × CommandAnnot))) (path : Option String) :
    (walkVisible children ann path).length = countVisibleLeaves children :=
  match children with
  | [] => rfl
  | (sn, sub) :: rest => by
    cases hh : sub.hidden with
    | true => simp [walkVisible, countVisibleLeaves, hh, walkVisible_length rest ann path]
    | false =>
      simp [walkVisible, countVisibleLeaves, hh,
        walk_length sub ann (some (childPath path sn)), walkVisible_length rest ann path]

end

/-- C3: the walker follows the spec's recursion — a group with at least
one visible child walks its visible children in declared order,
concatenating depth-first with child paths built from the parent path;
a group with no visible children, or a leaf, emits exactly one
descriptor named by the accumulated path (or `_root`); and the output
has exactly one descriptor per reachable visible leaf. -/
theorem walker_matches_spec :
    (∀ info children ann path, children.filter (fun c => !c.2.hidden) ≠ [] →
        walkCommands (.group info children) ann path =
          ((children.filter (fun c => !c.2.hidden)).map
            (fun c => walkCommands c.2 ann (some (childPath path c.1)))).flatten)
    ∧ (∀ info children ann path, children.filter (fun c => !c.2.hidden) = [] →
        walkCommands (.group info children) ann path =
          [buildCommand (.group info children) (pathOrRoot path) (annGet ann (pathOrRoot path))])
    ∧ (∀ info ann path, walkCommands (.leaf info) ann path =
        [buildCommand (.leaf info) (pathOrRoot path) (annGet ann (pathOrRoot path))])
    ∧ (∀ t ann path, (walkCommands t ann path).length = visibleLeafCount t) := by
  refine ⟨?_, ?_, ?_, walk_length⟩
  · intro info children ann path hne
    have hany : children.any (fun c => !c.2.hidden) = true := by
      rw [List.any_eq_true]
      obtain ⟨x, hx⟩ := List.exists_mem_of_ne_nil _ hne
      have h2 := List.mem_filter.mp hx
      exact ⟨x, h2.1, h2.2⟩
    rw [show walkCommands (.group info children) ann path = walkVisible children ann path by
      simp [walkCommands, hany]]
    exact walkVisible_flatten children ann path
  · intro info children ann path hnil
    have hany : children.any (fun c => !c.2.hidden) = false := by
      rw [List.any_eq_false]
      intro x hx
      exact List.filter_eq_nil_iff.mp hnil x hx
    simp [walkCommands, hany]
  · intro info ann path
    simp [walkCommands]

/-- Witness for C3 at the spec's Scenario B tree: nested groups
`a > b > c` flatten to the single command `"a b c"`. -/
theorem walker_matches_spec_witness :
    walkCommands (CmdTree.group { name := "tool" } [("a", CmdTree.group { name := "a" } [("b", CmdTree.group { name := "b" } [("c", CmdTree.leaf { name := "c" })])])]) Option.none Option.none =
      [buildCommand (CmdTree.leaf { name := "c" }) "a b c" Option.none] ∧
    (walkCommands (CmdTree.group { name := "tool" } [("a", CmdTree.group { name := "a" } [("b", CmdTree.group { name := "b" } [("c", CmdTree.leaf { name := "c" })])])]) Option.none Option.none).length =
      visibleLeafCount (CmdTree.group { name := "tool" } [("a", CmdTree.group { name := "a" } [("b", CmdTree.group { name := "b" } [("c", CmdTree.leaf { name := "c" })])])]) := by
  constructor
  · have h := walker_matches_spec.1 { name := "tool" }
      [("a", CmdTree.group { name := "a" } [("b", CmdTree.group { name := "b" } [("c", CmdTree.leaf { name := "c" })])])]
      Option.none Option.none (by simp [CmdTree.hidden, CmdTree.info])
    rw [h]
    rfl
  · exact walker_matches_spec.2.2.2 _ Option.none Option.none

mutual

/-- A serialized Python value never binds a key to null (it contains no
objects at all). -/
theorem noNullObjs_toJ (v : PyValue) : noNullObjs (PyValue.toJ v) = true :=
  match v with
  | .none => rfl
  | .bool _ => rfl
  | .int _ => rfl
  | .float _ => rfl
  | .str _ => rfl
  | .sentinel => rfl
  | .tuple vs => by simp [PyValue.toJ, noNullObjs, noNullArr_toJList vs]

/-- Element-wise version of `noNullObjs_toJ`. -/
theorem noNullArr_toJList (vs : List PyValue) : noNullArr (PyValue.toJList vs) = true :=
  match vs with
  | [] => rfl
  | v :: rest => by
    simp [PyValue.toJList, noNullArr, noNullObjs_toJ v, noNullArr_toJList rest]

end

/-- `noNullKVs` distributes over concatenation. -/
theorem noNullKVs_append (l1 l2 : List (String × JValue)) :
    noNullKVs (l1 ++ l2) = (noNullKVs l1 && noNullKVs l2) := by
  induction l1 with
  | nil => simp [noNullKVs]
  | cons p rest ih =>
    obtain ⟨k, v⟩ := p
    simp [noNullKVs, ih, Bool.and_assoc]

/-- String arrays contain no object bindings. -/
theorem noNullArr_map_str (vs : List String) : noNullArr (vs.map JValue.str) = true := by
  induction vs with
  | nil => rfl
  | cons x xs ih => simp [noNullArr, noNullObjs, ih]

/-- A serialized argument binds no key to null, provided its default is
representable. -/
theorem noNull_toDictArg (a : ArgDescriptor) (h : argDefaultOk a = true) :
    noNullObjs (toDictArg a) = true := by
  obtain ⟨n, t, de, req, df, vals⟩ := a
  simp only [argDefaultOk] at h
  unfold toDictArg
  simp only [noNullObjs, noNullKVs_append]
  cases de <;> cases req <;> cases vals <;>
    simp_all [noNullKVs, noNullObjs, optField, noNullArr_map_str]
  all_goals
    (cases df with
      | none => simp [optField, noNullKVs]
      | some v =>
        cases v <;>
          simp_all [optField, noNullKVs, noNullObjs_toJ, PyValue.toJ, noNullObjs,
            noNullArr_toJList])

/-- A serialized example binds no key to null. -/
theorem noNull_toDictExample (e : Example) : noNullObjs (toDictExample e) = true := by
  obtain ⟨d, c, o⟩ := e
  cases o <;> simp [toDictExample, noNullObjs, noNullKVs, noNullKVs_append, optField]

/-- Example arrays bind no key to null. -/
theorem noNullArr_map_example (es : List Example) :
    noNullArr (es.map toDictExample) = true := by
  induction es with
  | nil => rfl
  | cons e rest ih => simp [noNullArr, noNull_toDictExample e, ih]

/-- A serialized IO descriptor binds no key to null when its free-form
schema map is null-free. -/
theorem noNull_toDictIODescriptor (d : IODescriptor)
    (h : (match d.schema with
      | some m => noNullKVs m
      | Option.none => true) = true) :
    noNullObjs (toDictIODescriptor d) = true := by
  obtain ⟨ct, ds, sc⟩ := d
  simp only at h
  cases ct <;> cases ds <;> cases sc <;>
    simp_all [toDictIODescriptor, noNullObjs, noNullKVs, noNullKVs_append, optField]

/-- Argument arrays bind no key to null when their defaults are
representable. -/
theorem noNullArr_map_arg (l : List ArgDescriptor) (h : l.all argDefaultOk = true) :
    noNullArr (l.map toDictArg) = true := by
  induction l with
  | nil => rfl
  | cons a rest ih =>
    simp only [List.all_cons, Bool.and_eq_true] at h
    simp [noNullArr, noNull_toDictArg a h.1, ih h.2]

/-- A serialized IO descriptor is always an object, never a null. -/
theorem toDictIODescriptor_not_null (d : IODescriptor) :
    (match toDictIODescriptor d with | JValue.null => false | _ => true) = true := by
  unfold toDictIODescriptor
  rfl

/-- A serialized command binds no key to null when its free-form maps
are null-free and its argument defaults representable. -/
theorem noNull_toDictCommand (c : CommandDescriptor) (h : cmdMapsNullFree c = true) :
    noNullObjs (toDictCommand c) = true := by
  obtain ⟨n, de, args, si, so, ex⟩ := c
  simp only [cmdMapsNullFree, Bool.and_eq_true] at h
  unfold toDictCommand
  have hA : noNullKVs [(snakeToCamel "name", JValue.str n),
      (snakeToCamel "description", JValue.str de)] = true := by
    simp [noNullKVs, noNullObjs]
  have hB : noNullKVs (optField (snakeToCamel "args")
      (args.map (fun l => JValue.arr (l.map toDictArg)))) = true := by
    cases args with
    | none => simp [optField, noNullKVs]
    | some l =>
      have hl : l.all argDefaultOk = true := by simpa using h.2
      simp [optField, noNullKVs, noNullObjs, noNullArr_map_arg l hl]
  have hC : noNullKVs (optField (snakeToCamel "stdin") (si.map toDictIODescriptor)) = true := by
    cases si with
    | none => simp [optField, noNullKVs]
    | some d =>
      have h1 := noNull_toDictIODescriptor d (by simpa [ioNullFree] using h.1.1)
      simp [optField, noNullKVs, h1, toDictIODescriptor_not_null d]
  have hD : noNullKVs (optField (snakeToCamel "stdout") (so.map toDictIODescriptor)) = true := by
    cases so with
    | none => simp [optField, noNullKVs]
    | some d =>
      have h1 := noNull_toDictIODescriptor d (by simpa [ioNullFree] using h.1.2)
      simp [optField, noNullKVs, h1, toDictIODescriptor_not_null d]
  have hE : noNullKVs (optField (snakeToCamel "examples")
      (ex.map (fun l => JValue.arr (l.map toDictExample)))) = true := by
    cases ex with
    | none => simp [optField, noNullKVs]
    | some es => simp [optField, noNullKVs, noNullObjs, noNullArr_map_example]
  simp [noNullObjs, noNullKVs, noNullKVs_append, hA, hB, hC, hD, hE]

/-- Replacing a key's entries with a null-free value keeps the bindings
null-free. -/
theorem noNullKVs_map_replace (r : List (String × JValue)) (k : String) (v : JValue)
    (hr : noNullKVs r = true)
    (hv : (match v with | JValue.null => false | _ => true) = true)
    (hv2 : noNullObjs v = true) :
    noNullKVs (r.map (fun p => if p.1 == k then (k, v) else p)) = true := by
  induction r with
  | nil => rfl
  | cons p rest ih =>
    obtain ⟨pk, pv⟩ := p
    simp only [noNullKVs, Bool.and_eq_true] at hr
    by_cases hk : (pk == k) = true
    · simp only [List.map_cons, if_pos hk]
      simp only [noNullKVs, Bool.and_eq_true]
      exact ⟨⟨hv, hv2⟩, ih hr.2⟩
    · simp only [List.map_cons, if_neg hk]
      simp only [noNullKVs, Bool.and_eq_true]
      exact ⟨⟨hr.1.1, hr.1.2⟩, ih hr.2⟩

/-- `dictSet` with a null-free value keeps the bindings null-free. -/
theorem noNullKVs_dictSet (r : List (String × JValue)) (k : String) (v : JValue)
    (hr : noNullKVs r = true)
    (hv : (match v with | JValue.null => false | _ => true) = true)
    (hv2 : noNullObjs v = true) :
    noNullKVs (dictSet r k v) = true := by
  unfold dictSet
  split
  · exact noNullKVs_map_replace r k v hr hv hv2
  · rw [noNullKVs_append]
    simp [hr, noNullKVs, hv, hv2]

/-- `dictDel` keeps the bindings null-free. -/
theorem noNullKVs_dictDel (r : List (String × JValue)) (k : String)
    (h : noNullKVs r = true) : noNullKVs (dictDel r k) = true := by
  unfold dictDel
  induction r with
  | nil => rfl
  | cons p rest ih =>
    obtain ⟨pk, pv⟩ := p
    simp only [noNullKVs, Bool.and_eq_true] at h
    by_cases hk : (pk != k) = true
    · simp [List.filter_cons, hk, noNullKVs, h.1.1, h.1.2, ih h.2]
    · have hk' : (pk != k) = false := by simpa using hk
      simp [List.filter_cons, hk', ih h.2]

/-- Folding null-free updates keeps the bindings null-free. -/
theorem noNullKVs_foldl (m : List (String × JValue)) :
    ∀ r, noNullKVs m = true → noNullKVs r = true →
      noNullKVs (m.foldl (fun r kv => dictSet r kv.1 kv.2) r) = true := by
  induction m with
  | nil => intro r _ hr; exact hr
  | cons kv rest ih =>
    intro r hm hr
    obtain ⟨k, v⟩ := kv
    simp only [noNullKVs, Bool.and_eq_true] at hm
    exact ih _ hm.2 (noNullKVs_dictSet r k v hr hm.1.1 hm.1.2)

/-- A serialized auth config binds no key to null when its `extra` map
is null-free. -/
theorem noNull_toDictAuth (a : AuthConfig)
    (h : (match a.extra with
      | some m => noNullKVs m
      | Option.none => true) = true) :
    noNullObjs (toDictAuth a) = true := by
  obtain ⟨t, d, e⟩ := a
  simp only at h
  cases e with
  | none =>
    cases d <;> simp [toDictAuth, noNullObjs, noNullKVs, noNullKVs_append, optField]
  | some m =>
    cases hm : m.isEmpty with
    | true =>
      rw [List.isEmpty_iff] at hm
      subst hm
      cases d <;>
        simp [toDictAuth, noNullObjs, noNullKVs, noNullKVs_append, optField]
    | false =>
      have hbase : noNullKVs (dictDel ([(snakeToCamel "type", JValue.str t)] ++
          optField (snakeToCamel "description") (d.map .str) ++
          optField (snakeToCamel "extra") ((some m).map .obj)) "extra") = true := by
        apply noNullKVs_dictDel
        cases d <;> simp_all [noNullKVs, noNullKVs_append, optField, noNullObjs]
      simp only [toDictAuth, hm, Bool.not_false, if_true, noNullObjs]
      exact noNullKVs_foldl m _ h hbase

/-- Command arrays bind no key to null under the per-command
precondition. -/
theorem noNullArr_map_command (cs : List CommandDescriptor)
    (h : cs.all cmdMapsNullFree = true) :
    noNullArr (cs.map toDictCommand) = true := by
  induction cs with
  | nil => rfl
  | cons c rest ih =>
    simp only [List.all_cons, Bool.and_eq_true] at h
    simp [noNullArr, noNull_toDictCommand c h.1, ih h.2]

/-- A serialized auth config is always an object, never a null. -/
theorem toDictAuth_not_null (a : AuthConfig) :
    (match toDictAuth a with | JValue.null => false | _ => true) = true := by
  obtain ⟨t, d, e⟩ := a
  unfold toDictAuth
  cases e with
  | none => rfl
  | some m => cases hm : m.isEmpty <;> simp [hm]

/-- C9 (amended): multi-word snake_case field names are rewritten to
lowerCamelCase and absent fields are omitted, so — provided every
free-form pass-through map (auth `extra`, stdin/stdout `schema`) is
null-free and argument defaults are representable — the serialized
schema never binds a key to an explicit null; free-form maps themselves
pass through unchanged and may reintroduce nulls. -/
theorem serializer_camel_and_null_free (s : ToolSchema) (h : schemaMapsNullFree s = true) :
    noNullObjs (toDictSchema s) = true
    ∧ objKeys (toDictSchema s) = ["name", "version", "description", "specVersion", "commands"] ++
        (match s.auth with
          | some _ => ["auth"]
          | Option.none => [])
    ∧ snakeToCamel "content_type" = "contentType"
    ∧ snakeToCamel "spec_version" = "specVersion" := by
  obtain ⟨n, ver, de, sv, cmds, au⟩ := s
  simp only [schemaMapsNullFree, Bool.and_eq_true] at h
  refine ⟨?_, ?_, rfl, rfl⟩
  · unfold toDictSchema
    have hcmds := noNullArr_map_command cmds h.2
    cases au with
    | none =>
      simp [noNullObjs, noNullKVs, noNullKVs_append, optField, noNullArr, hcmds]
    | some a =>
      have ha := noNull_toDictAuth a h.1
      simp [noNullObjs, noNullKVs, noNullKVs_append, optField, noNullArr, hcmds, ha,
        toDictAuth_not_null a]
  · cases au <;> rfl

/-- C9 counterexample: a null value inside the pass-through `extra` map
survives into the output as a key bound to an explicit null. -/
theorem serializer_null_counterexample :
    noNullObjs (toDictSchema { name := "t", version := "1", description := "d", spec_version := "sv", commands := [], auth := some { type := "x", extra := some [("k", JValue.null)] } }) = false ∧
    objLookup (toDictAuth { type := "x", extra := some [("k", JValue.null)] }) "k" = some JValue.null := by
  exact ⟨rfl, rfl⟩

/-- Witness for C9 at a minimal schema. -/
theorem serializer_camel_and_null_free_witness :
    schemaMapsNullFree { name := "t", version := "1", description := "d", spec_version := "sv" } = true ∧
    noNullObjs (toDictSchema { name := "t", version := "1", description := "d", spec_version := "sv" }) = true ∧
    objKeys (toDictSchema { name := "t", version := "1", description := "d", spec_version := "sv" }) = ["name", "version", "description", "specVersion", "commands"] :=
  ⟨rfl,
    (serializer_camel_and_null_free { name := "t", version := "1", description := "d", spec_version := "sv" } rfl).1,
    (serializer_camel_and_null_free { name := "t", version := "1", description := "d", spec_version := "sv" } rfl).2.1.trans rfl⟩

/-- A good name has a non-empty, space-free character list. -/
theorem goodName_spec (s : String) (h : goodName s = true) :
    s.data ≠ [] ∧ ¬(' ' ∈ s.data) := by
  simp only [goodName, Bool.and_eq_true, Bool.not_eq_true'] at h
  obtain ⟨h1, h2⟩ := h
  constructor
  · intro he
    rw [he] at h1
    simp at h1
  · intro hm
    rw [show s.data.contains ' ' = s.data.elem ' ' from rfl] at h2
    rw [List.elem_iff.mpr hm] at h2
    simp at h2

/-- The characters of a child path: the parent prefix followed by the
child name. -/
theorem childPath_data (p : Option String) (sn : String) (hp : goodPath p) :
    (childPath p sn).data = pathPrefix p ++ sn.data := by
  cases p with
  | none => simp [childPath, pathPrefix]
  | some q =>
    have hq : q ≠ "" := hp
    have hqb : (q == "") = false := beq_eq_false_iff_ne.mpr hq
    have hsp : (" " : String).data = [' '] := rfl
    simp [childPath, pathPrefix, hqb, String.data_append, hsp]

/-- Two distinct space-free names stay distinct under space-separated
extension. -/
theorem ext_ne (a b t1 t2 : List Char)
    (ha : ¬(' ' ∈ a)) (hb : ¬(' ' ∈ b)) (hab : a ≠ b)
    (h1 : t1 = [] ∨ ∃ r, t1 = ' ' :: r) (h2 : t2 = [] ∨ ∃ r, t2 = ' ' :: r) :
    a ++ t1 ≠ b ++ t2 := by
  intro he
  rcases List.append_eq_append_iff.mp he with ⟨d, hd1, hd2⟩ | ⟨d, hd1, hd2⟩
  · cases d with
    | nil => exact hab (by simpa using hd1.symm)
    | cons c d2 =>
      rcases h1 with h1 | ⟨r, hr⟩
      · rw [h1] at hd2
        exact absurd hd2.symm (List.cons_ne_nil _ _)
      · rw [hr] at hd2
        have hc : c = ' ' := (List.cons.injEq _ _ _ _).mp hd2.symm |>.1
        apply hb
        rw [hd1, hc]
        simp
  · cases d with
    | nil => exact hab (by simpa using hd1)
    | cons c d2 =>
      rcases h2 with h2 | ⟨r, hr⟩
      · rw [h2] at hd2
        exact absurd hd2.symm (List.cons_ne_nil _ _)
      · rw [hr] at hd2
        have hc : c = ' ' := ((List.cons.injEq _ _ _ _).mp hd2 |>.1).symm
        apply ha
        rw [hd1, hc]
        simp

/-- Each child of a well-named list is itself well named. -/
theorem wellNamedLB_mem (children : List (String × CmdTree)) (c : String × CmdTree)
    (hc : c ∈ children) (h : wellNamedLB children = true) :
    goodName c.1 = true ∧ wellNamedB c.2 = true := by
  induction children with
  | nil => simp at hc
  | cons c0 rest ih =>
    simp only [wellNamedLB, Bool.and_eq_true] at h
    rcases List.mem_cons.mp hc with he | hm
    · subst he
      exact ⟨h.1.1, h.1.2⟩
    · exact ih hm h.2

mutual

/-- Names emitted from a well-named subtree below a non-empty path are
pairwise distinct, and each extends that path. -/
theorem walkNames_sub (t : CmdTree) (ann : Option (List (String × CommandAnnot)))
    (q : String) (hq : q ≠ "") (hw : wellNamedB t = true) :
    ((walkCommands t ann (some q)).map (·.name)).Nodup ∧
    ∀ s ∈ (walkCommands t ann (some q)).map (·.name), extOf q.data s.data :=
  match t with
  | .leaf i => by
    have hb : (q == "") = false := beq_eq_false_iff_ne.mpr hq
    simp [walkCommands, buildCommand_name, pathOrRoot, hb, extOf]
  | .group i children => by
    cases hv : children.any (fun c => !c.2.hidden) with
    | false =>
      have hb : (q == "") = false := beq_eq_false_iff_ne.mpr hq
      simp [walkCommands, hv, buildCommand_name, pathOrRoot, hb, extOf]
    | true =>
      have hw2 := hw
      simp only [wellNamedB, Bool.and_eq_true] at hw2
      have hmain := walkNames_children children ann (some q) hq hw2.1 hw2.2
      rw [show walkCommands (.group i children) ann (some q) =
        walkVisible children ann (some q) by simp [walkCommands, hv]]
      refine ⟨hmain.1, ?_⟩
      intro s hs
      obtain ⟨c, hc, hch, hext⟩ := hmain.2 s hs
      have hb : (q == "") = false := beq_eq_false_iff_ne.mpr hq
      rw [show pathPrefix (some q) = q.data ++ [' '] by simp [pathPrefix, hb]] at hext
      rcases hext with he | ⟨r, hr⟩
      · right
        exact ⟨c.1.data, by rw [he]; simp⟩
      · right
        exact ⟨c.1.data ++ ' ' :: r, by rw [hr]; simp⟩

/-- Names emitted from a well-named child list are pairwise distinct,
and each extends its own child's path. -/
theorem walkNames_children (children : List (String × CmdTree))
    (ann : Option (List (String × CommandAnnot))) (p : Option String)
    (hp : goodPath p) (hnd : namesNodup (children.map (·.1)) = true)
    (hwl : wellNamedLB children = true) :
    ((walkVisible children ann p).map (·.name)).Nodup ∧
    ∀ s ∈ (walkVisible children ann p).map (·.name),
      ∃ c ∈ children, c.2.hidden = false ∧ extOf (pathPrefix p ++ c.1.data) s.data :=
  match children with
  | [] => by simp [walkVisible]
  | (sn, sub) :: rest => by
    simp only [wellNamedLB, Bool.and_eq_true] at hwl
    obtain ⟨⟨hgn, hwsub⟩, hwrest⟩ := hwl
    simp only [List.map_cons, namesNodup, Bool.and_eq_true, Bool.not_eq_true'] at hnd
    obtain ⟨hsn_nin, hnd_rest⟩ := hnd
    have hnm : ¬(sn ∈ rest.map (·.1)) := by
      intro hm
      rw [show (rest.map (·.1)).contains sn = (rest.map (·.1)).elem sn from rfl,
        List.elem_iff.mpr hm] at hsn_nin
      simp at hsn_nin
    have hrest := walkNames_children rest ann p hp hnd_rest hwrest
    cases hh : sub.hidden with
    | true =>
      rw [show walkVisible ((sn, sub) :: rest) ann p = walkVisible rest ann p by
        simp [walkVisible, hh]]
      refine ⟨hrest.1, ?_⟩
      intro s hs
      obtain ⟨c, hc, h1, h2⟩ := hrest.2 s hs
      exact ⟨c, List.mem_cons_of_mem _ hc, h1, h2⟩
    | false =>
      have hcp := childPath_data p sn hp
      have hgs := goodName_spec sn hgn
      have hcp_ne : childPath p sn ≠ "" := by
        intro he
        have hdata : (childPath p sn).data = [] := by rw [he]
        rw [hcp] at hdata
        exact hgs.1 (List.append_eq_nil.mp hdata).2
      have hsub := walkNames_sub sub ann (childPath p sn) hcp_ne hwsub
      rw [show walkVisible ((sn, sub) :: rest) ann p =
        walkCommands sub ann (some (childPath p sn)) ++ walkVisible rest ann p by
          simp [walkVisible, hh]]
      rw [List.map_append]
      constructor
      · apply hsub.1.append hrest.1
        intro s hsA hsB
        obtain ⟨c, hc, hch, hext⟩ := hrest.2 s hsB
        have hextA := hsub.2 s hsA
        rw [hcp] at hextA
        have hcg := wellNamedLB_mem rest c hc hwrest
        have hcs := goodName_spec c.1 hcg.1
        have hne : sn.data ≠ c.1.data := by
          intro he
          exact (by
            intro h2
            exact hnm (h2 ▸ List.mem_map_of_mem (·.1) hc) : sn ≠ c.1) (String.ext he)
        obtain ⟨e1, he1, hp1⟩ : ∃ e, s.data = (pathPrefix p ++ sn.data) ++ e ∧
            (e = [] ∨ ∃ r, e = ' ' :: r) := by
          rcases hextA with h | ⟨r, hr⟩
          · exact ⟨[], by simp [h], Or.inl rfl⟩
          · exact ⟨' ' :: r, by simp [hr], Or.inr ⟨r, rfl⟩⟩
        obtain ⟨e2, he2, hp2⟩ : ∃ e, s.data = (pathPrefix p ++ c.1.data) ++ e ∧
            (e = [] ∨ ∃ r, e = ' ' :: r) := by
          rcases hext with h | ⟨r, hr⟩
          · exact ⟨[], by simp [h], Or.inl rfl⟩
          · exact ⟨' ' :: r, by simp [hr], Or.inr ⟨r, rfl⟩⟩
        have heq : sn.data ++ e1 = c.1.data ++ e2 := by
          have h3 : (pathPrefix p ++ sn.data) ++ e1 = (pathPrefix p ++ c.1.data) ++ e2 :=
            he1.symm.trans he2
          rw [List.append_assoc, List.append_assoc] at h3
          exact (List.append_right_inj _).mp h3
        exact ext_ne sn.data c.1.data e1 e2 hgs.2 hcs.2 hne hp1 hp2 heq
      · intro s hs
        rcases List.mem_append.mp hs with hA | hB
        · refine ⟨(sn, sub), List.mem_cons_self _ _, hh, ?_⟩
          have h4 := hsub.2 s hA
          rw [hcp] at h4
          exact h4
        · obtain ⟨c, hc, h1, h2⟩ := hrest.2 s hB
          exact ⟨c, List.mem_cons_of_mem _ hc, h1, h2⟩

end

/-- C6 (amended): for every command tree whose group children bear
pairwise-distinct, non-empty, space-free names, the names of the
emitted descriptors are pairwise distinct. -/
theorem command_names_unique (t : CmdTree)
    (ann : Option (List (String × CommandAnnot)))
    (h : wellNamedB t = true) :
    ((walkCommands t ann Option.none).map (·.name)).Nodup := by
  cases t with
  | leaf i => simp [walkCommands]
  | group i children =>
    cases hv : children.any (fun c => !c.2.hidden) with
    | false => simp [walkCommands, hv]
    | true =>
      simp only [wellNamedB, Bool.and_eq_true] at h
      rw [show walkCommands (.group i children) ann Option.none =
        walkVisible children ann Option.none by simp [walkCommands, hv]]
      exact (walkNames_children children ann Option.none trivial h.1 h.2).1

/-- C6 counterexample: sibling names containing spaces collide — a
child `"a"` holding a leaf `"b"` and a sibling leaf named `"a b"` both
flatten to the command name `"a b"`. -/
theorem command_names_unique_counterexample :
    (walkCommands (CmdTree.group { name := "t" } [("a", CmdTree.group { name := "a" } [("b", CmdTree.leaf { name := "b" })]), ("a b", CmdTree.leaf { name := "ab" })]) Option.none Option.none).map (fun c => c.name) = ["a b", "a b"] ∧
    ¬((walkCommands (CmdTree.group { name := "t" } [("a", CmdTree.group { name := "a" } [("b", CmdTree.leaf { name := "b" })]), ("a b", CmdTree.leaf { name := "ab" })]) Option.none Option.none).map (fun c => c.name)).Nodup := by
  constructor
  · rfl
  · intro h
    rw [show (walkCommands (CmdTree.group { name := "t" } [("a", CmdTree.group { name := "a" } [("b", CmdTree.leaf { name := "b" })]), ("a b", CmdTree.leaf { name := "ab" })]) Option.none Option.none).map (fun c => c.name) = ["a b", "a b"] from rfl] at h
    simp at h

/-- Witness for C6 at the spec's Scenario C tree (one visible child,
one hidden child). -/
theorem command_names_unique_witness :
    wellNamedB (CmdTree.group { name := "tool" } [("public", CmdTree.leaf { name := "p" }), ("internal", CmdTree.leaf { name := "i", hidden := true })]) = true ∧
    ((walkCommands (CmdTree.group { name := "tool" } [("public", CmdTree.leaf { name := "p" }), ("internal", CmdTree.leaf { name := "i", hidden := true })]) Option.none Option.none).map (·.name)).Nodup :=
  ⟨rfl, command_names_unique (CmdTree.group { name := "tool" } [("public", CmdTree.leaf { name := "p" }), ("internal", CmdTree.leaf { name := "i", hidden := true })]) Option.none rfl⟩

end MtpSdk
